import Mathlib

/- Shallow embedding of the ETL pipeline of src/graph.py.
   Tables are lists of typed rows; a pandas NaN or NaT cell is modelled as
   none of an Option type. Dates are calendar triples carrying a day-number
   function used for ordering and differences, as pandas timestamps are. -/

/-- Calendar date as produced by pandas to_datetime (midnight timestamps). -/
structure Date where
  year : Nat
  month : Nat
  day : Nat
deriving DecidableEq

/-- Day number of a civil date (days counted from 0000-03-01, standard
days-from-civil computation). Only differences and comparisons of these
numbers are used, which is exactly how the code uses timestamps. -/
def Date.toDays (d : Date) : Nat :=
  let y := if d.month ≤ 2 then d.year - 1 else d.year
  let era := y / 400
  let yoe := y % 400
  let mp := (d.month + 9) % 12
  let doy := (153 * mp + 2) / 5 + d.day - 1
  let doe := yoe * 365 + yoe / 4 - yoe / 100 + doy
  era * 146097 + doe

/-- Row of Sales.csv after the to_datetime coercion of Order Date
(line 36 of graph.py): an unparseable date such as 00/00/0000 is NaT,
modelled as none. -/
structure SalesRow where
  orderDate : Option Date
  productKey : Int
  storeKey : Int
  customerKey : Int
  currencyCode : String
  quantity : Option ℚ
deriving DecidableEq

/-- Row of Products.csv as loaded: the two price columns are formatted
currency text (object dtype), a missing cell is none. -/
structure ProductRow where
  productKey : Int
  productName : Option String
  category : Option String
  unitCostUSD : Option String
  unitPriceUSD : Option String
deriving DecidableEq

/-- Row of Stores.csv after the to_datetime coercion of Open Date. -/
structure StoreRow where
  storeKey : Int
  state : Option String
  country : Option String
  squareMeters : Option ℚ
  openDate : Option Date
deriving DecidableEq

/-- Row of Customers.csv after the to_datetime coercion of Birthday. -/
structure CustomerRow where
  customerKey : Int
  birthday : Option Date
  state : Option String
  country : Option String
deriving DecidableEq

/-- Row of Exchange_Rates.csv after the to_datetime coercion of Date. -/
structure ExchangeRow where
  date : Option Date
  currency : Option String
  rate : Option ℚ
deriving DecidableEq

/-- Sales cleaning of load_and_clean_data (lines 44 and 55 of graph.py):
dropna on Order Date, then keep rows whose order date year is at least
2000. -/
def cleanSales (rows : List SalesRow) : List SalesRow :=
  (rows.filter (fun r => r.orderDate.isSome)).filter
    (fun r =>
      match r.orderDate with
      | some d => decide (2000 ≤ d.year)
      | none => false)

/-- Sort key used to model sort_values by Date on the exchange table:
the day number of the date, 0 for a missing date. -/
def dateKey (r : ExchangeRow) : Nat :=
  match r.date with
  | some d => d.toDays
  | none => 0

/-- Insertion step of a stable insertion sort on the date key. -/
def insertByDate (a : ExchangeRow) : List ExchangeRow → List ExchangeRow
  | [] => [a]
  | b :: bs => if dateKey a ≤ dateKey b then a :: b :: bs else b :: insertByDate a bs

/-- Stable sort by date, modelling df_exchange.sort_values by Date
(line 50 of graph.py); the claims under test only involve pairwise
distinct dates, for which any comparison sort agrees. -/
def sortByDate : List ExchangeRow → List ExchangeRow
  | [] => []
  | a :: rest => insertByDate a (sortByDate rest)

/-- Whole-frame forward fill, modelling df_exchange.ffill() (line 51 of
graph.py): every column is filled independently with the last non-missing
value seen above it, regardless of the currency of that value. The three
accumulators carry the last seen date, currency and rate. -/
def ffillExchange : Option Date → Option String → Option ℚ → List ExchangeRow → List ExchangeRow
  | _, _, _, [] => []
  | pd, pc, pr, r :: rest =>
      let d := match r.date with | some x => some x | none => pd
      let c := match r.currency with | some x => some x | none => pc
      let q := match r.rate with | some x => some x | none => pr
      ⟨d, c, q⟩ :: ffillExchange d c q rest

/-- Exchange-rate cleaning of load_and_clean_data (lines 49 to 51 of
graph.py): drop rows with a missing date, sort ascending by date, then
forward fill. -/
def cleanExchange (rows : List ExchangeRow) : List ExchangeRow :=
  ffillExchange none none none (sortByDate (rows.filter (fun r => r.date.isSome)))

/-- Last non-missing observation of a column prefix, with a starting
value carried in from above the prefix. -/
def lastObs (v : Option ℚ) (pre : List (Option ℚ)) : Option ℚ :=
  pre.foldl (fun acc x => match x with | some q => some q | none => acc) v

/-- Last non-missing rate among the rows of a prefix that carry the given
currency code. Spec-side notion used to state the per-currency fill claim. -/
def lastRateOfCurrency (pre : List ExchangeRow) (c : Option String) : Option ℚ :=
  lastObs none ((pre.filter (fun r => decide (r.currency = c))).map (fun r => r.rate))

/-- Modelled from the spec: the rate column that a per-currency forward
fill over the date-sorted table would produce, in which a missing rate
receives the most recent earlier non-missing rate of the same currency.
This follows the words of the spec and is compared against cleanExchange,
which is translated from the code. -/
def specPerCurrencyFill (rows : List ExchangeRow) : List (Option ℚ) :=
  let s := sortByDate (rows.filter (fun r => r.date.isSome))
  (List.range s.length).map (fun i =>
    match s.get? i with
    | none => none
    | some ri =>
      match ri.rate with
      | some q => some q
      | none => lastRateOfCurrency (s.take i) ri.currency)

/-- Digit list to number, as a decimal-text parser accumulates it. -/
def digitsVal (cs : List Char) : Nat :=
  cs.foldl (fun acc c => 10 * acc + (c.toNat - 48)) 0

/-- Result of coercing one text cell to a number: a finite value or one
of the two float infinities; a missing result (NaN or parse failure) is
the none of the surrounding Option. -/
inductive NumVal
  | fin (q : ℚ)
  | posInf
  | negInf
deriving DecidableEq

/-- ASCII whitespace accepted around numeric text by the float parser. -/
def isSpaceChar (c : Char) : Bool :=
  c = ' ' || c = '\t' || c = '\n' || c = '\r' || c = '\x0b' || c = '\x0c'

/-- Trim of leading and trailing whitespace around numeric text. -/
def trimWs (cs : List Char) : List Char :=
  ((cs.dropWhile isSpaceChar).reverse.dropWhile isSpaceChar).reverse

/-- Lowercased text, for the case-insensitive special words. -/
def lowerChars (cs : List Char) : List Char := cs.map Char.toLower

/-- The two infinity words the float parser accepts, in any case. -/
def infWord (cs : List Char) : Bool :=
  lowerChars cs = ['i', 'n', 'f'] || lowerChars cs = ['i', 'n', 'f', 'i', 'n', 'i', 't', 'y']

/-- Parse of the optional exponent tail of a numeral: empty text means
exponent zero, otherwise the letter e in either case, an optional sign
and at least one digit. -/
def parseExpPart (cs : List Char) : Option Int :=
  match cs with
  | [] => some 0
  | c :: rest =>
      if c = 'e' || c = 'E' then
        match rest with
        | [] => none
        | d :: ds =>
            if d = '+' then
              if !ds.isEmpty && ds.all Char.isDigit then some ((digitsVal ds : Int))
              else none
            else if d = '-' then
              if !ds.isEmpty && ds.all Char.isDigit then some (-(digitsVal ds : Int))
              else none
            else
              if (d :: ds).all Char.isDigit then some ((digitsVal (d :: ds) : Int))
              else none
      else none

/-- Exact rational value of integer digits, fractional digits and a
signed decimal exponent. -/
def decValue (ip fp : List Char) (ex : Int) : ℚ :=
  ((digitsVal ip : ℚ) + (digitsVal fp : ℚ) / (10 : ℚ) ^ fp.length) * (10 : ℚ) ^ ex

/-- Parse of an unsigned finite numeral as the pandas numeric coercion
reads it: digits with an optional fractional part and an optional
exponent part, at least one mantissa digit required. The value is kept as
an exact rational; float rounding and overflow are not modelled. -/
def parseUnsignedDec (cs : List Char) : Option ℚ :=
  let ip := cs.takeWhile Char.isDigit
  match cs.dropWhile Char.isDigit with
  | [] => if ip.isEmpty then none else some ((digitsVal ip : ℚ))
  | c :: fpe =>
      if c = '.' then
        let fp := fpe.takeWhile Char.isDigit
        if ip.isEmpty && fp.isEmpty then none
        else
          match parseExpPart (fpe.dropWhile Char.isDigit) with
          | some ex => some (decValue ip fp ex)
          | none => none
      else
        if ip.isEmpty then none
        else
          match parseExpPart (c :: fpe) with
          | some ex => some (decValue ip [] ex)
          | none => none

/-- Numeric coercion of sign-free text: the infinity words give the
infinities, the word nan gives a missing value, and otherwise the text
must read as a finite numeral. -/
def toNumericUnsigned (cs : List Char) (neg : Bool) : Option NumVal :=
  if infWord cs then some (if neg then NumVal.negInf else NumVal.posInf)
  else if lowerChars cs = ['n', 'a', 'n'] then none
  else
    match parseUnsignedDec cs with
    | some q => some (NumVal.fin (if neg then -q else q))
    | none => none

/-- Model of pd.to_numeric with errors coerce on one ASCII text cell
(graph.py line 81): optional surrounding whitespace, an optional sign,
then an infinity word, the word nan, or a finite numeral with optional
fraction and exponent; anything else becomes missing. -/
def toNumeric (cs : List Char) : Option NumVal :=
  match trimWs cs with
  | [] => none
  | c :: rest =>
      if c = '-' then toNumericUnsigned rest true
      else if c = '+' then toNumericUnsigned rest false
      else toNumericUnsigned (c :: rest) false

/-- Whether trimmed text is an optionally signed infinity word, the one
digit-free shape the numeric coercion turns into a number. -/
def infText (cs : List Char) : Bool :=
  match trimWs cs with
  | [] => false
  | c :: rest =>
      if c = '-' then infWord rest
      else if c = '+' then infWord rest
      else infWord (c :: rest)

/-- Price normalization of perform_strategic_analysis (lines 79 to 81 of
graph.py): drop every dollar sign and comma from the text, then coerce
with the numeric coercion, failures becoming missing. -/
def parsePrice (s : String) : Option NumVal :=
  toNumeric (s.data.filter (fun c => !(c = '$' || c = ',')))

/-- Finite part of a parsed cell. The tabular model of this development
stores exact rationals, so a column cell is a finite value or missing;
an infinite parse, which the dollar-and-comma decimal price text of this
data never produces, lies outside the tabular model and is recorded as
missing here. -/
def NumVal.toRat : NumVal → Option ℚ
  | NumVal.fin q => some q
  | NumVal.posInf => none
  | NumVal.negInf => none

/-- Row of Products.csv after the price cleaning step: the two price
columns are numeric with parse failures as none. -/
structure CleanProductRow where
  productKey : Int
  productName : Option String
  category : Option String
  unitCostUSD : Option ℚ
  unitPriceUSD : Option ℚ
deriving DecidableEq

/-- Price cleaning applied to one product row (a missing cell stays
missing). -/
def cleanProductRow (p : ProductRow) : CleanProductRow :=
  ⟨p.productKey, p.productName, p.category,
    (p.unitCostUSD.bind parsePrice).bind NumVal.toRat,
    (p.unitPriceUSD.bind parsePrice).bind NumVal.toRat⟩

/-- Left join in the sense of pd.merge how=left: every left row is kept;
a left row with matching right rows yields one output row per match, in
right-table order, and a left row with no match yields a single output
row combined with none. -/
def leftJoin {α β γ κ : Type} [DecidableEq κ] (l : List α) (r : List β)
    (ka : α → κ) (kb : β → κ) (comb : α → Option β → γ) : List γ :=
  match l with
  | [] => []
  | a :: rest =>
      (match r.filter (fun b => decide (kb b = ka a)) with
        | [] => [comb a none]
        | ms => ms.map (fun b => comb a (some b))) ++ leftJoin rest r ka kb comb

/-- Fully enriched row: the sales columns, the left-joined product, store
and customer columns, the exchange rate and the four derived KPI columns. -/
structure FullRow where
  orderDate : Option Date
  productKey : Int
  storeKey : Int
  customerKey : Int
  currencyCode : String
  quantity : Option ℚ
  productName : Option String
  category : Option String
  unitCostUSD : Option ℚ
  unitPriceUSD : Option ℚ
  storeState : Option String
  storeCountry : Option String
  squareMeters : Option ℚ
  openDate : Option Date
  birthday : Option Date
  custState : Option String
  custCountry : Option String
  exchangeRate : Option ℚ
  totalRevenueUSD : Option ℚ
  totalCostUSD : Option ℚ
  totalProfitUSD : Option ℚ
  profitMarginPct : Option ℚ
deriving DecidableEq

/-- Combination step of the sales-to-products merge (line 84 of graph.py). -/
def combineProduct (a : SalesRow) (ob : Option CleanProductRow) : FullRow where
  orderDate := a.orderDate
  productKey := a.productKey
  storeKey := a.storeKey
  customerKey := a.customerKey
  currencyCode := a.currencyCode
  quantity := a.quantity
  productName := ob.bind (fun b => b.productName)
  category := ob.bind (fun b => b.category)
  unitCostUSD := ob.bind (fun b => b.unitCostUSD)
  unitPriceUSD := ob.bind (fun b => b.unitPriceUSD)
  storeState := none
  storeCountry := none
  squareMeters := none
  openDate := none
  birthday := none
  custState := none
  custCountry := none
  exchangeRate := none
  totalRevenueUSD := none
  totalCostUSD := none
  totalProfitUSD := none
  profitMarginPct := none

/-- Combination step of the merge with stores (line 85 of graph.py). -/
def combineStore (a : FullRow) (ob : Option StoreRow) : FullRow :=
  { a with
    storeState := ob.bind (fun b => b.state)
    storeCountry := ob.bind (fun b => b.country)
    squareMeters := ob.bind (fun b => b.squareMeters)
    openDate := ob.bind (fun b => b.openDate) }

/-- Combination step of the merge with customers (line 86 of graph.py). -/
def combineCustomer (a : FullRow) (ob : Option CustomerRow) : FullRow :=
  { a with
    birthday := ob.bind (fun b => b.birthday)
    custState := ob.bind (fun b => b.state)
    custCountry := ob.bind (fun b => b.country) }

/-- Combination step of the merge with the renamed exchange table on
Order Date and Currency Code (lines 89 to 92 of graph.py). -/
def combineExchange (a : FullRow) (ob : Option ExchangeRow) : FullRow :=
  { a with exchangeRate := ob.bind (fun b => b.rate) }

/-- Fill of the missing exchange rates with 1.0 (line 95 of graph.py). -/
def fillRate (a : FullRow) : FullRow :=
  { a with exchangeRate := some (a.exchangeRate.getD 1) }

/-- Multiplication with NaN propagation, as pandas column arithmetic. -/
def mulOpt : Option ℚ → Option ℚ → Option ℚ
  | some a, some b => some (a * b)
  | _, _ => none

/-- Subtraction with NaN propagation, as pandas column arithmetic. -/
def subOpt : Option ℚ → Option ℚ → Option ℚ
  | some a, some b => some (a - b)
  | _, _ => none

/-- Division with NaN propagation, as pandas column arithmetic. -/
def divOpt : Option ℚ → Option ℚ → Option ℚ
  | some a, some b => some (a / b)
  | _, _ => none

/-- Test of the np.where condition on line 104 of graph.py: a NaN revenue
compares not-equal to 0, so it takes the division branch and stays NaN. -/
def neqZeroOpt : Option ℚ → Bool
  | some a => if a = 0 then false else true
  | none => true

/-- KPI derivation of perform_strategic_analysis (lines 98 to 107 of
graph.py): revenue and cost from quantity and the unit prices, profit as
their difference, and the margin percentage guarded by np.where so that a
zero revenue yields 0 instead of a division by zero. -/
def addKPIs (a : FullRow) : FullRow :=
  let rev := mulOpt a.quantity a.unitPriceUSD
  let cost := mulOpt a.quantity a.unitCostUSD
  let prof := subOpt rev cost
  let margin := if neqZeroOpt rev then mulOpt (divOpt prof rev) (some 100) else some 0
  { a with
    totalRevenueUSD := rev
    totalCostUSD := cost
    totalProfitUSD := prof
    profitMarginPct := margin }

/-- Whole enrichment stage perform_strategic_analysis (lines 67 to 109 of
graph.py): clean the product prices, left join sales with products,
stores and customers on their surrogate keys, left join with the exchange
table on date and currency, default missing rates to 1.0, then derive the
KPI columns. -/
def performStrategicAnalysis (sales : List SalesRow) (products : List ProductRow)
    (stores : List StoreRow) (customers : List CustomerRow)
    (exchange : List ExchangeRow) : List FullRow :=
  let prodClean := products.map cleanProductRow
  let j1 := leftJoin sales prodClean (fun a => a.productKey) (fun b => b.productKey) combineProduct
  let j2 := leftJoin j1 stores (fun a => a.storeKey) (fun b => b.storeKey) combineStore
  let j3 := leftJoin j2 customers (fun a => a.customerKey) (fun b => b.customerKey) combineCustomer
  let j4 := leftJoin j3 exchange (fun a => (a.orderDate, some a.currencyCode))
      (fun b => (b.date, b.currency)) combineExchange
  (j4.map fillRate).map addKPIs

/-- Sales columns of an enriched row, for stating that the driving table
is preserved by the joins. -/
def salesPart (r : FullRow) : SalesRow :=
  ⟨r.orderDate, r.productKey, r.storeKey, r.customerKey, r.currencyCode, r.quantity⟩

/-- The four derived KPI columns of an enriched row. -/
def kpiPart (r : FullRow) : Option ℚ × Option ℚ × Option ℚ × Option ℚ :=
  (r.totalRevenueUSD, r.totalCostUSD, r.totalProfitUSD, r.profitMarginPct)

/-- Age derivation of generate_visualizations (lines 186 to 187 of
graph.py): the day difference between now and the birthday, floor-divided
by 365; a missing birthday yields a missing age. -/
def computeAge (now : Date) (b : Option Date) : Option Int :=
  b.map (fun bd => Int.fdiv ((now.toDays : Int) - (bd.toDays : Int)) 365)

/-- Age column appended to the enriched table, pairing each row with its
derived age. -/
def addAgeColumn (now : Date) (rows : List FullRow) : List (FullRow × Option Int) :=
  rows.map (fun r => (r, computeAge now r.birthday))

/-- The five CSV sources as the process sees them: none models a file
that is absent from the working directory. -/
structure FileSystem where
  sales : Option (List SalesRow)
  products : Option (List ProductRow)
  stores : Option (List StoreRow)
  customers : Option (List CustomerRow)
  exchange : Option (List ExchangeRow)

/-- Read of one CSV source: an absent file raises FileNotFoundError,
modelled as an error carrying the file name, which is what the except arm
on lines 60 to 62 of graph.py reports. -/
def readTable {α : Type} (name : String) (contents : Option α) : Except String α :=
  match contents with
  | some t => Except.ok t
  | none => Except.error name

/-- The five tables as returned by load_and_clean_data on success. -/
structure CleanTables where
  sales : List SalesRow
  products : List ProductRow
  stores : List StoreRow
  customers : List CustomerRow
  exchange : List ExchangeRow

/-- Load and clean stage (lines 17 to 62 of graph.py): read the five
sources in program order inside one try block, clean the sales dates and
the exchange table, and on a missing file abort with the error naming it. -/
def loadAndCleanData (fs : FileSystem) : Except String CleanTables :=
  match readTable "Sales.csv" fs.sales with
  | Except.error msg => Except.error msg
  | Except.ok s =>
    match readTable "Products.csv" fs.products with
    | Except.error msg => Except.error msg
    | Except.ok p =>
      match readTable "Stores.csv" fs.stores with
      | Except.error msg => Except.error msg
      | Except.ok st =>
        match readTable "Customers.csv" fs.customers with
        | Except.error msg => Except.error msg
        | Except.ok c =>
          match readTable "Exchange_Rates.csv" fs.exchange with
          | Except.error msg => Except.error msg
          | Except.ok e => Except.ok ⟨cleanSales s, p, st, c, cleanExchange e⟩

/-- Top level of graph.py (lines 208 to 215): when loading failed the
None check skips the analysis, so no enriched output is produced. -/
def runPipeline (fs : FileSystem) : Option (List FullRow) :=
  match loadAndCleanData fs with
  | Except.error _ => none
  | Except.ok t =>
      some (performStrategicAnalysis t.sales t.products t.stores t.customers t.exchange)

/-- The given name denotes one of the five required sources and that
source is absent. -/
def FileSystem.missingFile (fs : FileSystem) (name : String) : Prop :=
  (name = "Sales.csv" ∧ fs.sales = none) ∨
  (name = "Products.csv" ∧ fs.products = none) ∨
  (name = "Stores.csv" ∧ fs.stores = none) ∨
  (name = "Customers.csv" ∧ fs.customers = none) ∨
  (name = "Exchange_Rates.csv" ∧ fs.exchange = none)

/-- Head of the match list of a key in a table, the lookup a left join
degenerates to when the table keys are unique. -/
def lookupHead {β κ : Type} [DecidableEq κ] (r : List β) (kb : β → κ) (k : κ) : Option β :=
  (r.filter (fun b => decide (kb b = k))).head?

/-- Enrichment of one sales row under unique-keyed dimension tables: each
join becomes a lookup of the row key. -/
def enrichRow (p : List ProductRow) (st : List StoreRow) (c : List CustomerRow)
    (e : List ExchangeRow) (a : SalesRow) : FullRow :=
  addKPIs (fillRate (combineExchange
    (combineCustomer
      (combineStore
        (combineProduct a
          (lookupHead (p.map cleanProductRow) (fun b => b.productKey) a.productKey))
        (lookupHead st (fun b => b.storeKey) a.storeKey))
      (lookupHead c (fun b => b.customerKey) a.customerKey))
    (lookupHead e (fun b => (b.date, b.currency)) (a.orderDate, some a.currencyCode))))

/-- Test of the range stated by the claim under scrutiny: an order date
between 2000-01-01 and the given current date, inclusive. -/
def withinRange (now : Date) (od : Option Date) : Bool :=
  match od with
  | some d => decide (Date.toDays ⟨2000, 1, 1⟩ ≤ d.toDays) && decide (d.toDays ≤ now.toDays)
  | none => false

/-- Concrete sales row used to exercise the end-to-end KPI example. -/
def wSales4 : SalesRow := ⟨some ⟨2021, 6, 1⟩, 1, 1, 1, "EUR", some 3⟩

/-- Concrete product row with price text 10.00 dollars and cost text 6.00
dollars written without decimals for the example. -/
def wProduct4 : ProductRow := ⟨1, some "P1", some "Toys", some "$6", some "$10"⟩

/-- Enriched-but-not-yet-derived row of the KPI example. -/
def wPre4 : FullRow :=
  fillRate (combineExchange
    (combineCustomer
      (combineStore (combineProduct wSales4 (some (cleanProductRow wProduct4))) none)
      none)
    none)

/-- Final enriched row of the KPI example. -/
def wRow4 : FullRow := addKPIs wPre4

/-- Concrete sales row with quantity 0 for the margin-guard example. -/
def wSales5 : SalesRow := ⟨some ⟨2021, 6, 1⟩, 1, 1, 1, "EUR", some 0⟩

/-- Concrete product row for the margin-guard example. -/
def wProduct5 : ProductRow := ⟨1, some "P1", some "Toys", some "$2", some "$1"⟩

/-- Enriched-but-not-yet-derived row of the margin-guard example. -/
def wPre5 : FullRow :=
  fillRate (combineExchange
    (combineCustomer
      (combineStore (combineProduct wSales5 (some (cleanProductRow wProduct5))) none)
      none)
    none)

/-- Final enriched row of the margin-guard example. -/
def wRow5 : FullRow := addKPIs wPre5

/-- Concrete sales row matched by no dimension table at all. -/
def wSales7 : SalesRow := ⟨some ⟨2021, 6, 1⟩, 1, 1, 1, "EUR", some 1⟩

/-- Enriched row of the unmatched-rate example: every lookup missed. -/
def wRow7 : FullRow :=
  addKPIs (fillRate (combineExchange
    (combineCustomer (combineStore (combineProduct wSales7 none) none) none)
    none))

/-- Concrete enriched row with a known birthday for the age example. -/
def wFull9 : FullRow :=
  ⟨some ⟨2021, 6, 1⟩, 1, 1, 1, "EUR", some 1, none, none, none, none, none, none,
    none, none, some ⟨2000, 6, 1⟩, none, none, some 1, none, none, none, none⟩

/-- In a table whose keys are pairwise distinct, at most one row carries
any given key. -/
theorem filter_key_length_le_one {β κ : Type} [DecidableEq κ] (kb : β → κ) (k : κ) :
    ∀ (r : List β), (r.map kb).Nodup → (r.filter (fun b => decide (kb b = k))).length ≤ 1 := by
  intro r
  induction r with
  | nil => intro _; simp
  | cons b bs ih =>
    intro h
    rw [List.map_cons, List.nodup_cons] at h
    by_cases hk : kb b = k
    · rw [List.filter_cons_of_pos (by simp [hk])]
      have hnil : bs.filter (fun x => decide (kb x = k)) = [] := by
        refine List.filter_eq_nil_iff.mpr ?_
        intro x hx
        simp only [decide_eq_true_eq]
        intro hkx
        exact h.1 (by rw [hk, ← hkx]; exact List.mem_map_of_mem kb hx)
      simp [hnil]
    · rw [List.filter_cons_of_neg (by simp [hk])]
      exact ih h.2

/-- Under unique right-table keys the left join is a per-row lookup: each
left row is combined with the head of its (at most singleton) match list. -/
theorem leftJoin_eq_map {α β γ κ : Type} [DecidableEq κ] (l : List α) (r : List β)
    (ka : α → κ) (kb : β → κ) (comb : α → Option β → γ)
    (h : (r.map kb).Nodup) :
    leftJoin l r ka kb comb
      = l.map (fun a => comb a ((r.filter (fun b => decide (kb b = ka a))).head?)) := by
  induction l with
  | nil => rfl
  | cons a rest ih =>
    rw [List.map_cons, ← ih, leftJoin]
    rcases hf : r.filter (fun b => decide (kb b = ka a)) with _ | ⟨b, ms⟩
    · simp [hf]
    · have hlen := filter_key_length_le_one kb (ka a) r h
      rw [hf] at hlen
      have hms : ms = [] := by
        cases ms with
        | nil => rfl
        | cons x xs => simp at hlen
      subst hms
      simp [hf]

/-- Every output row of a left join comes from some left row, either
combined with none or with a right row of matching key. -/
theorem mem_leftJoin {α β γ κ : Type} [DecidableEq κ] {l : List α} {r : List β}
    {ka : α → κ} {kb : β → κ} {comb : α → Option β → γ} {c : γ}
    (hc : c ∈ leftJoin l r ka kb comb) :
    ∃ a, a ∈ l ∧
      (c = comb a none ∨ ∃ b, b ∈ r ∧ kb b = ka a ∧ c = comb a (some b)) := by
  induction l with
  | nil => cases hc
  | cons a rest ih =>
    rw [leftJoin] at hc
    rcases List.mem_append.mp hc with h1 | h2
    · refine ⟨a, List.mem_cons_self a rest, ?_⟩
      rcases hf : r.filter (fun b => decide (kb b = ka a)) with _ | ⟨b, ms⟩
      · rw [hf] at h1
        simp only [List.mem_singleton] at h1
        exact Or.inl h1
      · rw [hf] at h1
        simp only [List.mem_map] at h1
        obtain ⟨b', hb', hcb⟩ := h1
        have hb'' : b' ∈ r.filter (fun x => decide (kb x = ka a)) := by
          rw [hf]; exact hb'
        have hsp := List.mem_filter.mp hb''
        exact Or.inr ⟨b', hsp.1, by simpa using hsp.2, hcb.symm⟩
    · obtain ⟨a', ha', hrest⟩ := ih h2
      exact ⟨a', List.mem_cons_of_mem a ha', hrest⟩

/-- Left joins preserve the number of rows when the right-table keys are
unique. -/
theorem leftJoin_length {α β γ κ : Type} [DecidableEq κ] (l : List α) (r : List β)
    (ka : α → κ) (kb : β → κ) (comb : α → Option β → γ)
    (h : (r.map kb).Nodup) :
    (leftJoin l r ka kb comb).length = l.length := by
  rw [leftJoin_eq_map l r ka kb comb h, List.length_map]

/-- Folding step of the last-observation accumulator. -/
theorem lastObs_cons (v : Option ℚ) (x : Option ℚ) (xs : List (Option ℚ)) :
    lastObs v (x :: xs) = lastObs (match x with | some q => some q | none => v) xs := by
  cases x <;> rfl

/-- Position-wise description of the whole-frame forward fill: the rate at
a position is its own value when present, and otherwise the most recent
earlier non-missing rate of any row, falling back to the carried-in value. -/
theorem ffillExchange_rate_get? (l : List ExchangeRow) :
    ∀ (pd : Option Date) (pc : Option String) (pr : Option ℚ) (i : Nat),
    ((ffillExchange pd pc pr l).map (fun r => r.rate)).get? i
      = (l.get? i).map (fun ri =>
          match ri.rate with
          | some q => some q
          | none => lastObs pr ((l.take i).map (fun r => r.rate))) := by
  induction l with
  | nil => intro pd pc pr i; rfl
  | cons r rest ih =>
    intro pd pc pr i
    cases i with
    | zero =>
      cases hr : r.rate <;> simp [ffillExchange, lastObs, hr]
    | succ i =>
      have step := ih
        (match r.date with | some x => some x | none => pd)
        (match r.currency with | some x => some x | none => pc)
        (match r.rate with | some x => some x | none => pr) i
      calc ((ffillExchange pd pc pr (r :: rest)).map (fun x => x.rate)).get? (i + 1)
          = ((ffillExchange
              (match r.date with | some x => some x | none => pd)
              (match r.currency with | some x => some x | none => pc)
              (match r.rate with | some x => some x | none => pr) rest).map
                (fun x => x.rate)).get? i := by
            simp [ffillExchange]
        _ = (rest.get? i).map (fun ri =>
              match ri.rate with
              | some q => some q
              | none => lastObs
                  (match r.rate with | some x => some x | none => pr)
                  ((rest.take i).map (fun x => x.rate))) := step
        _ = ((r :: rest).get? (i + 1)).map (fun ri =>
              match ri.rate with
              | some q => some q
              | none => lastObs pr (((r :: rest).take (i + 1)).map (fun x => x.rate))) := by
            rw [List.take_succ_cons, List.map_cons, lastObs_cons]
            rfl

/-- Position-wise description of the cleaned exchange-rate column in
terms of the date-sorted input. -/
theorem cleanExchange_rate_get? (rows : List ExchangeRow) (i : Nat) :
    ((cleanExchange rows).map (fun r => r.rate)).get? i
      = ((sortByDate (rows.filter (fun r => r.date.isSome))).get? i).map (fun ri =>
          match ri.rate with
          | some q => some q
          | none => lastObs none
              (((sortByDate (rows.filter (fun r => r.date.isSome))).take i).map
                (fun r => r.rate))) := by
  exact ffillExchange_rate_get? _ none none none i

/-- Revenue field of the derived row. -/
theorem addKPIs_revenue (y : FullRow) :
    (addKPIs y).totalRevenueUSD = mulOpt y.quantity y.unitPriceUSD := rfl

/-- Cost field of the derived row. -/
theorem addKPIs_cost (y : FullRow) :
    (addKPIs y).totalCostUSD = mulOpt y.quantity y.unitCostUSD := rfl

/-- Profit field of the derived row. -/
theorem addKPIs_profit (y : FullRow) :
    (addKPIs y).totalProfitUSD
      = subOpt (mulOpt y.quantity y.unitPriceUSD) (mulOpt y.quantity y.unitCostUSD) := rfl

/-- Margin of a derived row whose revenue is zero: the np.where guard
selects 0. -/
theorem addKPIs_margin_zero (y : FullRow)
    (h : mulOpt y.quantity y.unitPriceUSD = some 0) :
    (addKPIs y).profitMarginPct = some 0 := by
  show (if neqZeroOpt (mulOpt y.quantity y.unitPriceUSD) then
      mulOpt (divOpt (subOpt (mulOpt y.quantity y.unitPriceUSD)
        (mulOpt y.quantity y.unitCostUSD)) (mulOpt y.quantity y.unitPriceUSD)) (some 100)
    else some 0) = some 0
  rw [h]
  have hfalse : neqZeroOpt (some (0 : ℚ)) = false := by
    show (if (0 : ℚ) = 0 then false else true) = false
    rw [if_pos rfl]
  rw [hfalse]
  rfl

/-- Margin of a derived row whose revenue is present and nonzero: profit
over revenue times 100. -/
theorem addKPIs_margin_of_ne (y : FullRow) (v pf : ℚ)
    (hv : mulOpt y.quantity y.unitPriceUSD = some v) (hvne : v ≠ 0)
    (hpf : subOpt (mulOpt y.quantity y.unitPriceUSD)
      (mulOpt y.quantity y.unitCostUSD) = some pf) :
    (addKPIs y).profitMarginPct = some (pf / v * 100) := by
  show (if neqZeroOpt (mulOpt y.quantity y.unitPriceUSD) then
      mulOpt (divOpt (subOpt (mulOpt y.quantity y.unitPriceUSD)
        (mulOpt y.quantity y.unitCostUSD)) (mulOpt y.quantity y.unitPriceUSD)) (some 100)
    else some 0) = some (pf / v * 100)
  rw [hpf, hv]
  have htrue : neqZeroOpt (some v) = true := by
    show (if v = 0 then false else true) = true
    rw [if_neg hvne]
  rw [htrue]
  rfl

/-- Under unique keys in all four dimension tables the enrichment stage
is a row-wise map over the sales table. -/
theorem perform_eq_map (s : List SalesRow) (p : List ProductRow) (st : List StoreRow)
    (c : List CustomerRow) (e : List ExchangeRow)
    (hp : (p.map (fun x => x.productKey)).Nodup)
    (hst : (st.map (fun x => x.storeKey)).Nodup)
    (hc : (c.map (fun x => x.customerKey)).Nodup)
    (he : (e.map (fun x => (x.date, x.currency))).Nodup) :
    performStrategicAnalysis s p st c e = s.map (enrichRow p st c e) := by
  have hp2 : ((p.map cleanProductRow).map (fun b => b.productKey)).Nodup := by
    rw [List.map_map]
    exact hp
  simp only [performStrategicAnalysis]
  rw [leftJoin_eq_map _ _ _ _ _ hp2, leftJoin_eq_map _ _ _ _ _ hst,
    leftJoin_eq_map _ _ _ _ _ hc, leftJoin_eq_map _ _ _ _ _ he]
  simp only [List.map_map]
  rfl

/-- C1 counterexample: the claim that every cleaned sales row has its
order date within 2000-01-01 and now fails on the code, because cleaning
enforces no upper bound: a row dated 2099-01-01 survives cleaning even
with now taken as 2026-10-12. -/
theorem C1_counterexample :
    ¬ (∀ r ∈ cleanSales [⟨some ⟨2099, 1, 1⟩, 1, 1, 1, "USD", some 1⟩],
        withinRange ⟨2026, 10, 12⟩ r.orderDate = true) := by
  decide

/-- C1 amended: every row remaining in the cleaned sales table has a
parseable order date whose year is at least 2000, hence on or after
2000-01-01; rows with unparseable or pre-2000 dates are absent, but no
upper bound against the current time is enforced. -/
theorem C1_amended_lower_bound (rows : List SalesRow) (r : SalesRow)
    (hr : r ∈ cleanSales rows) :
    ∃ d, r.orderDate = some d ∧ 2000 ≤ d.year := by
  have h2 : (match r.orderDate with
      | some d => decide (2000 ≤ d.year)
      | none => false) = true := (List.mem_filter.mp hr).2
  rcases ho : r.orderDate with _ | d
  · rw [ho] at h2
    exact absurd h2 (by simp)
  · rw [ho] at h2
    exact ⟨d, rfl, by simpa using h2⟩

/-- Witness for the amended C1 at a concrete cleaned table. -/
theorem C1_amended_lower_bound_witness :
    ∃ d, (⟨some ⟨2021, 6, 1⟩, 1, 1, 1, "EUR", some 1⟩ : SalesRow).orderDate = some d ∧
      2000 ≤ d.year :=
  C1_amended_lower_bound [⟨some ⟨2021, 6, 1⟩, 1, 1, 1, "EUR", some 1⟩]
    ⟨some ⟨2021, 6, 1⟩, 1, 1, 1, "EUR", some 1⟩ (by decide)

/-- C2 counterexample: the fill is not per currency. With a EUR rate on
day 1, a USD rate on day 2 and a missing EUR rate on day 3, the code
carries the USD rate of day 2 into the day 3 EUR row, so the cleaned rate
column differs from the per-currency fill the claim describes. -/
theorem C2_counterexample :
    (cleanExchange
        [⟨some ⟨2021, 1, 1⟩, some "EUR", some 2⟩,
         ⟨some ⟨2021, 1, 2⟩, some "USD", some 3⟩,
         ⟨some ⟨2021, 1, 3⟩, some "EUR", none⟩]).map (fun r => r.rate)
      ≠ specPerCurrencyFill
        [⟨some ⟨2021, 1, 1⟩, some "EUR", some 2⟩,
         ⟨some ⟨2021, 1, 2⟩, some "USD", some 3⟩,
         ⟨some ⟨2021, 1, 3⟩, some "EUR", none⟩] := by
  decide

/-- C2 amended: exchange-rate cleaning forward-fills the rate column
globally over the date-sorted sequence, regardless of currency: a row
whose rate is missing receives the most recent earlier non-missing rate
of any currency, and stays missing when no earlier observation exists.
With a single currency in the table this coincides with the per-currency
reading, so rates on day 1 and day 5 with day 3 missing give day 3 the
day 1 rate. -/
theorem C2_amended_global_ffill (rows : List ExchangeRow) (i : Nat) (r0 : ExchangeRow)
    (hi : (sortByDate (rows.filter (fun r => r.date.isSome))).get? i = some r0)
    (hnone : r0.rate = none) :
    ((cleanExchange rows).map (fun r => r.rate)).get? i
      = some (lastObs none
          (((sortByDate (rows.filter (fun r => r.date.isSome))).take i).map
            (fun r => r.rate))) := by
  rw [cleanExchange_rate_get?, hi]
  simp [hnone]

/-- Witness for the amended C2 at the single-currency spec example: rates
on day 1 and day 5, day 3 missing, and day 3 receives the day 1 rate. -/
theorem C2_amended_global_ffill_witness :
    ((cleanExchange
        [⟨some ⟨2021, 1, 1⟩, some "EUR", some 2⟩,
         ⟨some ⟨2021, 1, 5⟩, some "EUR", some 3⟩,
         ⟨some ⟨2021, 1, 3⟩, some "EUR", none⟩]).map (fun r => r.rate)).get? 1
      = some (some 2) := by
  have h := C2_amended_global_ffill
    [⟨some ⟨2021, 1, 1⟩, some "EUR", some 2⟩,
     ⟨some ⟨2021, 1, 5⟩, some "EUR", some 3⟩,
     ⟨some ⟨2021, 1, 3⟩, some "EUR", none⟩] 1
    ⟨some ⟨2021, 1, 3⟩, some "EUR", none⟩ (by decide) rfl
  rw [h]
  decide

/-- C3: with unique keys in the products, stores, customers and exchange
tables, the enriched output has exactly one row per cleaned sales row, in
order, every sales row reappearing with its sales columns intact; a sales
row matched by no product, store or customer row is still present, with
the corresponding foreign attributes null. -/
theorem C3_join_cardinality (s : List SalesRow) (p : List ProductRow)
    (st : List StoreRow) (c : List CustomerRow) (e : List ExchangeRow)
    (hp : (p.map (fun x => x.productKey)).Nodup)
    (hst : (st.map (fun x => x.storeKey)).Nodup)
    (hc : (c.map (fun x => x.customerKey)).Nodup)
    (he : (e.map (fun x => (x.date, x.currency))).Nodup) :
    (performStrategicAnalysis s p st c e).length = s.length ∧
    (performStrategicAnalysis s p st c e).map salesPart = s ∧
    ∀ r ∈ performStrategicAnalysis s p st c e,
      ((∀ pr ∈ p, pr.productKey ≠ r.productKey) →
        r.productName = none ∧ r.category = none ∧
        r.unitCostUSD = none ∧ r.unitPriceUSD = none) ∧
      ((∀ sr ∈ st, sr.storeKey ≠ r.storeKey) →
        r.storeState = none ∧ r.storeCountry = none ∧
        r.squareMeters = none ∧ r.openDate = none) ∧
      ((∀ cr ∈ c, cr.customerKey ≠ r.customerKey) →
        r.birthday = none ∧ r.custState = none ∧ r.custCountry = none) := by
  have hmap := perform_eq_map s p st c e hp hst hc he
  refine ⟨?_, ?_, ?_⟩
  · rw [hmap, List.length_map]
  · rw [hmap, List.map_map]
    have hid : (salesPart ∘ enrichRow p st c e) = fun a => a := funext (fun a => rfl)
    rw [hid]
    exact List.map_id s
  · intro r hr
    rw [hmap] at hr
    obtain ⟨a, ha, rfl⟩ := List.mem_map.mp hr
    refine ⟨?_, ?_, ?_⟩
    · intro hnp
      have hnone : lookupHead (p.map cleanProductRow) (fun b => b.productKey)
          a.productKey = none := by
        rw [lookupHead]
        rw [List.filter_eq_nil_iff.mpr ?_]
        · rfl
        · intro b hb
          obtain ⟨pr, hpr, rfl⟩ := List.mem_map.mp hb
          simp only [decide_eq_true_eq]
          exact hnp pr hpr
      refine ⟨?_, ?_, ?_, ?_⟩
      · show (lookupHead (p.map cleanProductRow) (fun b => b.productKey)
          a.productKey).bind (fun b => b.productName) = none
        rw [hnone]; rfl
      · show (lookupHead (p.map cleanProductRow) (fun b => b.productKey)
          a.productKey).bind (fun b => b.category) = none
        rw [hnone]; rfl
      · show (lookupHead (p.map cleanProductRow) (fun b => b.productKey)
          a.productKey).bind (fun b => b.unitCostUSD) = none
        rw [hnone]; rfl
      · show (lookupHead (p.map cleanProductRow) (fun b => b.productKey)
          a.productKey).bind (fun b => b.unitPriceUSD) = none
        rw [hnone]; rfl
    · intro hns
      have hnone : lookupHead st (fun b => b.storeKey) a.storeKey = none := by
        rw [lookupHead]
        rw [List.filter_eq_nil_iff.mpr ?_]
        · rfl
        · intro b hb
          simp only [decide_eq_true_eq]
          exact hns b hb
      refine ⟨?_, ?_, ?_, ?_⟩
      · show (lookupHead st (fun b => b.storeKey) a.storeKey).bind
          (fun b => b.state) = none
        rw [hnone]; rfl
      · show (lookupHead st (fun b => b.storeKey) a.storeKey).bind
          (fun b => b.country) = none
        rw [hnone]; rfl
      · show (lookupHead st (fun b => b.storeKey) a.storeKey).bind
          (fun b => b.squareMeters) = none
        rw [hnone]; rfl
      · show (lookupHead st (fun b => b.storeKey) a.storeKey).bind
          (fun b => b.openDate) = none
        rw [hnone]; rfl
    · intro hnc
      have hnone : lookupHead c (fun b => b.customerKey) a.customerKey = none := by
        rw [lookupHead]
        rw [List.filter_eq_nil_iff.mpr ?_]
        · rfl
        · intro b hb
          simp only [decide_eq_true_eq]
          exact hnc b hb
      refine ⟨?_, ?_, ?_⟩
      · show (lookupHead c (fun b => b.customerKey) a.customerKey).bind
          (fun b => b.birthday) = none
        rw [hnone]; rfl
      · show (lookupHead c (fun b => b.customerKey) a.customerKey).bind
          (fun b => b.state) = none
        rw [hnone]; rfl
      · show (lookupHead c (fun b => b.customerKey) a.customerKey).bind
          (fun b => b.country) = none
        rw [hnone]; rfl

/-- Witness for C3: one sales row whose product key 2 matches nothing in
the single-product table, all tables unique-keyed; the row is kept with
null product attributes. -/
theorem C3_join_cardinality_witness :
    (performStrategicAnalysis [⟨some ⟨2021, 6, 1⟩, 2, 1, 1, "EUR", some 1⟩]
        [⟨1, some "P1", none, none, none⟩] [] [] []).length = 1 ∧
    (performStrategicAnalysis [⟨some ⟨2021, 6, 1⟩, 2, 1, 1, "EUR", some 1⟩]
        [⟨1, some "P1", none, none, none⟩] [] [] []).map salesPart
      = [⟨some ⟨2021, 6, 1⟩, 2, 1, 1, "EUR", some 1⟩] ∧
    ∀ r ∈ performStrategicAnalysis [⟨some ⟨2021, 6, 1⟩, 2, 1, 1, "EUR", some 1⟩]
        [⟨1, some "P1", none, none, none⟩] [] [] [],
      ((∀ pr ∈ [(⟨1, some "P1", none, none, none⟩ : ProductRow)],
          pr.productKey ≠ r.productKey) →
        r.productName = none ∧ r.category = none ∧
        r.unitCostUSD = none ∧ r.unitPriceUSD = none) ∧
      ((∀ sr ∈ ([] : List StoreRow), sr.storeKey ≠ r.storeKey) →
        r.storeState = none ∧ r.storeCountry = none ∧
        r.squareMeters = none ∧ r.openDate = none) ∧
      ((∀ cr ∈ ([] : List CustomerRow), cr.customerKey ≠ r.customerKey) →
        r.birthday = none ∧ r.custState = none ∧ r.custCountry = none) :=
  C3_join_cardinality [⟨some ⟨2021, 6, 1⟩, 2, 1, 1, "EUR", some 1⟩]
    [⟨1, some "P1", none, none, none⟩] [] [] []
    (by decide) (by decide) (by decide) (by decide)

/-- C4: every enriched row with present quantity, unit price and unit
cost has total revenue equal to quantity times unit price, total cost
equal to quantity times unit cost, and total profit equal to their
difference. -/
theorem C4_kpi_formulas (s : List SalesRow) (p : List ProductRow) (st : List StoreRow)
    (c : List CustomerRow) (e : List ExchangeRow) (r : FullRow)
    (hr : r ∈ performStrategicAnalysis s p st c e) (q up uc : ℚ)
    (hq : r.quantity = some q) (hup : r.unitPriceUSD = some up)
    (huc : r.unitCostUSD = some uc) :
    r.totalRevenueUSD = some (q * up) ∧ r.totalCostUSD = some (q * uc) ∧
    r.totalProfitUSD = some (q * up - q * uc) := by
  simp only [performStrategicAnalysis] at hr
  obtain ⟨y, hy, rfl⟩ := List.mem_map.mp hr
  have hq' : y.quantity = some q := hq
  have hup' : y.unitPriceUSD = some up := hup
  have huc' : y.unitCostUSD = some uc := huc
  refine ⟨?_, ?_, ?_⟩
  · rw [addKPIs_revenue, hq', hup']
    rfl
  · rw [addKPIs_cost, hq', huc']
    rfl
  · rw [addKPIs_profit, hq', hup', huc']
    rfl

/-- Witness for C4 at the end-to-end example: quantity 3, unit price 10
and unit cost 6 dollars give revenue 30, cost 18, profit 12 and margin
40 percent. -/
theorem C4_kpi_formulas_witness :
    ∃ r ∈ performStrategicAnalysis [wSales4] [wProduct4] [] [] [],
      r.totalRevenueUSD = some 30 ∧ r.totalCostUSD = some 18 ∧
      r.totalProfitUSD = some 12 ∧ r.profitMarginPct = some 40 := by
  have hmem : wRow4 ∈ performStrategicAnalysis [wSales4] [wProduct4] [] [] [] :=
    show wRow4 ∈ [wRow4] from List.mem_singleton.mpr rfl
  have h := C4_kpi_formulas [wSales4] [wProduct4] [] [] [] wRow4 hmem
    3 ((10 : Nat) : ℚ) ((6 : Nat) : ℚ) rfl rfl rfl
  have hv : mulOpt wPre4.quantity wPre4.unitPriceUSD = some 30 := by
    show mulOpt (some (3 : ℚ)) (some ((10 : Nat) : ℚ)) = some 30
    simp only [mulOpt]
    norm_num
  have hpf : subOpt (mulOpt wPre4.quantity wPre4.unitPriceUSD)
      (mulOpt wPre4.quantity wPre4.unitCostUSD) = some 12 := by
    show subOpt (mulOpt (some (3 : ℚ)) (some ((10 : Nat) : ℚ)))
      (mulOpt (some (3 : ℚ)) (some ((6 : Nat) : ℚ))) = some 12
    simp only [mulOpt, subOpt]
    norm_num
  have hm := addKPIs_margin_of_ne wPre4 30 12 hv (by norm_num) hpf
  refine ⟨wRow4, hmem, ?_, ?_, ?_, ?_⟩
  · rw [h.1]
    norm_num
  · rw [h.2.1]
    norm_num
  · rw [h.2.2]
    norm_num
  · exact hm.trans (by norm_num)

/-- C5: on every enriched row the margin is 0 when total revenue is 0,
and profit over revenue times 100 when the revenue is present and
nonzero; the division branch of the np.where guard is only selected for
nonzero revenue. -/
theorem C5_margin_guard (s : List SalesRow) (p : List ProductRow) (st : List StoreRow)
    (c : List CustomerRow) (e : List ExchangeRow) (r : FullRow)
    (hr : r ∈ performStrategicAnalysis s p st c e) :
    (r.totalRevenueUSD = some 0 → r.profitMarginPct = some 0) ∧
    (∀ v pf, r.totalRevenueUSD = some v → v ≠ 0 → r.totalProfitUSD = some pf →
      r.profitMarginPct = some (pf / v * 100)) := by
  simp only [performStrategicAnalysis] at hr
  obtain ⟨y, hy, rfl⟩ := List.mem_map.mp hr
  constructor
  · intro h0
    exact addKPIs_margin_zero y h0
  · intro v pf hv hvne hpf
    exact addKPIs_margin_of_ne y v pf hv hvne hpf

/-- Witness for C5 at the margin-guard example: quantity 0 gives a zero
revenue and a zero profit, and the margin is 0 with no failure. -/
theorem C5_margin_guard_witness :
    ∃ r ∈ performStrategicAnalysis [wSales5] [wProduct5] [] [] [],
      r.totalRevenueUSD = some 0 ∧ r.totalProfitUSD = some 0 ∧
      r.profitMarginPct = some 0 := by
  have hmem : wRow5 ∈ performStrategicAnalysis [wSales5] [wProduct5] [] [] [] :=
    show wRow5 ∈ [wRow5] from List.mem_singleton.mpr rfl
  have hrev : wRow5.totalRevenueUSD = some 0 := by
    show mulOpt (some (0 : ℚ)) (some ((1 : Nat) : ℚ)) = some 0
    simp only [mulOpt]
    norm_num
  have hprof : wRow5.totalProfitUSD = some 0 := by
    show subOpt (mulOpt (some (0 : ℚ)) (some ((1 : Nat) : ℚ)))
      (mulOpt (some (0 : ℚ)) (some ((2 : Nat) : ℚ))) = some 0
    simp only [mulOpt, subOpt]
    norm_num
  have h := (C5_margin_guard [wSales5] [wProduct5] [] [] [] wRow5 hmem).1 hrev
  exact ⟨wRow5, hmem, hrev, hprof, h⟩

/-- Characters surviving the whitespace trim come from the input. -/
theorem mem_trimWs {c : Char} {cs : List Char} (hc : c ∈ trimWs cs) : c ∈ cs := by
  simp only [trimWs, List.mem_reverse] at hc
  have h1 : c ∈ (cs.dropWhile isSpaceChar).reverse :=
    (List.dropWhile_sublist _).mem hc
  rw [List.mem_reverse] at h1
  exact (List.dropWhile_sublist _).mem h1

/-- A character list without digits never parses as a finite numeral. -/
theorem parseUnsignedDec_no_digit (cs : List Char)
    (h : ∀ ch ∈ cs, ch.isDigit = false) : parseUnsignedDec cs = none := by
  cases cs with
  | nil => rfl
  | cons a l =>
    have ha := h a (List.mem_cons_self a l)
    have hip : (a :: l).takeWhile Char.isDigit = [] := by
      simp [List.takeWhile_cons, ha]
    have hdp : (a :: l).dropWhile Char.isDigit = a :: l := by
      simp [List.dropWhile_cons, ha]
    simp only [parseUnsignedDec, hip, hdp]
    by_cases hd : a = '.'
    · rw [if_pos hd]
      have hfp : l.takeWhile Char.isDigit = [] := by
        cases l with
        | nil => rfl
        | cons b l2 =>
          have hb := h b (List.mem_cons_of_mem a (List.mem_cons_self b l2))
          simp [List.takeWhile_cons, hb]
      rw [hfp]
      simp
    · rw [if_neg hd]
      simp

/-- Sign-free numeric coercion of digit-free text: an infinity word
gives the matching infinity and anything else gives a missing value. -/
theorem toNumericUnsigned_no_digit (cs : List Char) (neg : Bool)
    (h : ∀ ch ∈ cs, ch.isDigit = false) :
    (infWord cs = false → toNumericUnsigned cs neg = none) ∧
    (infWord cs = true → toNumericUnsigned cs neg
      = some (if neg then NumVal.negInf else NumVal.posInf)) := by
  constructor
  · intro hw
    simp only [toNumericUnsigned, hw]
    by_cases hn : lowerChars cs = ['n', 'a', 'n']
    · rw [if_neg (by simp), if_pos hn]
    · rw [if_neg (by simp), if_neg hn, parseUnsignedDec_no_digit cs h]
  · intro hw
    simp [toNumericUnsigned, hw]

/-- Numeric coercion of digit-free text: missing unless the trimmed text
is an optionally signed infinity word, in which case an infinity. -/
theorem toNumeric_no_digit (cs : List Char) (h : ∀ ch ∈ cs, ch.isDigit = false) :
    (infText cs = false → toNumeric cs = none) ∧
    (infText cs = true → toNumeric cs = some NumVal.posInf ∨
      toNumeric cs = some NumVal.negInf) := by
  have htrim : ∀ ch ∈ trimWs cs, ch.isDigit = false :=
    fun ch hch => h ch (mem_trimWs hch)
  rcases htw : trimWs cs with _ | ⟨c, rest⟩
  · constructor
    · intro _
      simp only [toNumeric, htw]
    · intro hf
      simp only [infText, htw] at hf
      exact (Bool.false_ne_true hf).elim
  · have hrest : ∀ ch ∈ rest, ch.isDigit = false := by
      intro ch hch
      refine htrim ch ?_
      rw [htw]
      exact List.mem_cons_of_mem c hch
    have hall : ∀ ch ∈ c :: rest, ch.isDigit = false := by
      intro ch hch
      refine htrim ch ?_
      rw [htw]
      exact hch
    simp only [toNumeric, infText, htw]
    by_cases h1 : c = '-'
    · rw [if_pos h1, if_pos h1]
      exact ⟨(toNumericUnsigned_no_digit rest true hrest).1,
        fun hw => Or.inr ((toNumericUnsigned_no_digit rest true hrest).2 hw)⟩
    · rw [if_neg h1, if_neg h1]
      by_cases h2 : c = '+'
      · rw [if_pos h2, if_pos h2]
        exact ⟨(toNumericUnsigned_no_digit rest false hrest).1,
          fun hw => Or.inl ((toNumericUnsigned_no_digit rest false hrest).2 hw)⟩
      · rw [if_neg h2, if_neg h2]
        exact ⟨(toNumericUnsigned_no_digit (c :: rest) false hall).1,
          fun hw => Or.inl ((toNumericUnsigned_no_digit (c :: rest) false hall).2 hw)⟩

/-- C6 counterexample: the price text inf-after-a-dollar-sign contains no
digit yet coerces to the number infinity, not to a missing value, because
pd.to_numeric with errors coerce accepts the infinity words. -/
theorem C6_counterexample :
    (∀ ch ∈ ("$inf" : String).data, ch.isDigit = false) ∧
    parsePrice "$inf" = some NumVal.posInf := by
  constructor
  · decide
  · rfl

/-- C6 amended: price normalization strips the currency symbol and the
thousands separators and coerces the text as pd.to_numeric with errors
coerce does: the text 1,234.50 dollars parses to the numeric 1234.50, and
a string with no digits parses to missing, not zero, unless after
stripping and whitespace trimming it is an optionally signed infinity
word, inf or infinity in any case, which parses to the non-missing value
infinity. -/
theorem C6_price_parsing_amended :
    parsePrice "$1,234.50" = some (NumVal.fin (2469 / 2)) ∧
    ∀ s : String, (∀ ch ∈ s.data, ch.isDigit = false) →
      (infText (s.data.filter (fun c => !(c = '$' || c = ','))) = false →
        parsePrice s = none) ∧
      (infText (s.data.filter (fun c => !(c = '$' || c = ','))) = true →
        parsePrice s = some NumVal.posInf ∨ parsePrice s = some NumVal.negInf) := by
  constructor
  · have h : parsePrice "$1,234.50"
        = some (NumVal.fin (decValue ['1', '2', '3', '4'] ['5', '0'] 0)) := rfl
    have h1 : digitsVal ['1', '2', '3', '4'] = 1234 := by decide
    have h2 : digitsVal ['5', '0'] = 50 := by decide
    rw [h]
    simp only [decValue, h1, h2]
    norm_num
  · intro s hs
    exact toNumeric_no_digit _
      (fun ch hch => hs ch (List.mem_of_mem_filter hch))

/-- Witness for the amended C6 at two concrete digit-free price texts:
plain text stays missing and the infinity word becomes an infinity. -/
theorem C6_price_parsing_amended_witness :
    parsePrice "N/A" = none ∧
    (parsePrice "$inf" = some NumVal.posInf ∨ parsePrice "$inf" = some NumVal.negInf) :=
  ⟨(C6_price_parsing_amended.2 "N/A" (by decide)).1 (by decide),
   (C6_price_parsing_amended.2 "$inf" (by decide)).2 (by decide)⟩

/-- C7: every enriched row carries a present exchange rate, and a row
whose date and currency match no exchange-table entry carries exactly the
default rate 1.0. -/
theorem C7_rate_filled (s : List SalesRow) (p : List ProductRow) (st : List StoreRow)
    (c : List CustomerRow) (e : List ExchangeRow) (r : FullRow)
    (hr : r ∈ performStrategicAnalysis s p st c e) :
    r.exchangeRate.isSome = true ∧
    ((∀ x ∈ e, ¬ (x.date = r.orderDate ∧ x.currency = some r.currencyCode)) →
      r.exchangeRate = some 1) := by
  simp only [performStrategicAnalysis] at hr
  obtain ⟨y, hy, rfl⟩ := List.mem_map.mp hr
  obtain ⟨z, hz, rfl⟩ := List.mem_map.mp hy
  refine ⟨rfl, ?_⟩
  intro h
  obtain ⟨a, ha, hcase⟩ := mem_leftJoin hz
  rcases hcase with rfl | ⟨b, hb, hkey, rfl⟩
  · rfl
  · exfalso
    have h1 : b.date = a.orderDate := congrArg Prod.fst hkey
    have h2 : b.currency = some a.currencyCode := congrArg Prod.snd hkey
    exact h b hb ⟨h1, h2⟩

/-- Witness for C7: a sales row joined against an empty exchange table
gets the default rate 1.0. -/
theorem C7_rate_filled_witness :
    wRow7 ∈ performStrategicAnalysis [wSales7] [] [] [] [] ∧
    wRow7.exchangeRate.isSome = true ∧ wRow7.exchangeRate = some 1 := by
  have hmem : wRow7 ∈ performStrategicAnalysis [wSales7] [] [] [] [] :=
    show wRow7 ∈ [wRow7] from List.mem_singleton.mpr rfl
  have h := C7_rate_filled [wSales7] [] [] [] [] wRow7 hmem
  exact ⟨hmem, h.1, h.2 (by simp)⟩

/-- C8: when any required source file is absent the load stage fails with
a file-not-found error that names an absent source, and the pipeline
produces no enriched output at all. -/
theorem C8_missing_source_aborts (fs : FileSystem)
    (h : fs.sales = none ∨ fs.products = none ∨ fs.stores = none ∨
      fs.customers = none ∨ fs.exchange = none) :
    ∃ name, fs.missingFile name ∧ loadAndCleanData fs = Except.error name ∧
      runPipeline fs = none := by
  rcases hs : fs.sales with _ | s
  · exact ⟨"Sales.csv", Or.inl ⟨rfl, hs⟩,
      by simp [loadAndCleanData, readTable, hs],
      by simp [runPipeline, loadAndCleanData, readTable, hs]⟩
  rcases hp : fs.products with _ | p
  · exact ⟨"Products.csv", Or.inr (Or.inl ⟨rfl, hp⟩),
      by simp [loadAndCleanData, readTable, hs, hp],
      by simp [runPipeline, loadAndCleanData, readTable, hs, hp]⟩
  rcases hst : fs.stores with _ | st
  · exact ⟨"Stores.csv", Or.inr (Or.inr (Or.inl ⟨rfl, hst⟩)),
      by simp [loadAndCleanData, readTable, hs, hp, hst],
      by simp [runPipeline, loadAndCleanData, readTable, hs, hp, hst]⟩
  rcases hc : fs.customers with _ | c
  · exact ⟨"Customers.csv", Or.inr (Or.inr (Or.inr (Or.inl ⟨rfl, hc⟩))),
      by simp [loadAndCleanData, readTable, hs, hp, hst, hc],
      by simp [runPipeline, loadAndCleanData, readTable, hs, hp, hst, hc]⟩
  rcases he : fs.exchange with _ | e
  · exact ⟨"Exchange_Rates.csv", Or.inr (Or.inr (Or.inr (Or.inr ⟨rfl, he⟩))),
      by simp [loadAndCleanData, readTable, hs, hp, hst, hc, he],
      by simp [runPipeline, loadAndCleanData, readTable, hs, hp, hst, hc, he]⟩
  rcases h with h | h | h | h | h <;> simp_all

/-- Witness for C8 at a file system where Sales.csv is absent. -/
theorem C8_missing_source_aborts_witness :
    ∃ name, FileSystem.missingFile ⟨none, some [], some [], some [], some []⟩ name ∧
      loadAndCleanData ⟨none, some [], some [], some [], some []⟩ = Except.error name ∧
      runPipeline ⟨none, some [], some [], some [], some []⟩ = none :=
  C8_missing_source_aborts ⟨none, some [], some [], some [], some []⟩ (Or.inl rfl)

/-- C9: the appended age is the floor of the day difference between now
and the birthday divided by 365 when the birthday is present, and missing
when the birthday is missing. -/
theorem C9_age (now : Date) (rows : List FullRow) (x : FullRow × Option Int)
    (hx : x ∈ addAgeColumn now rows) :
    (∀ b, x.1.birthday = some b →
      x.2 = some (Int.fdiv ((now.toDays : Int) - (b.toDays : Int)) 365)) ∧
    (x.1.birthday = none → x.2 = none) := by
  obtain ⟨r, hr, rfl⟩ := List.mem_map.mp hx
  constructor
  · intro b hb
    show computeAge now r.birthday = _
    rw [show r.birthday = some b from hb]
    rfl
  · intro hb
    show computeAge now r.birthday = none
    rw [show r.birthday = none from hb]
    rfl

/-- Witness for C9 at the spec example: birthday 2000-06-01 with now
fixed at 2024-06-01 gives age 24. -/
theorem C9_age_witness :
    ∃ x ∈ addAgeColumn ⟨2024, 6, 1⟩ [wFull9], x.2 = some 24 := by
  have hmem : (wFull9, computeAge ⟨2024, 6, 1⟩ wFull9.birthday)
      ∈ addAgeColumn ⟨2024, 6, 1⟩ [wFull9] := by decide
  have h := (C9_age ⟨2024, 6, 1⟩ [wFull9]
      (wFull9, computeAge ⟨2024, 6, 1⟩ wFull9.birthday) hmem).1 ⟨2000, 6, 1⟩ rfl
  exact ⟨_, hmem, h.trans (by decide)⟩

/-- C10: the four KPI columns never read the exchange-rate input: with
the same sales, product, store and customer tables and any two
unique-keyed exchange tables, the KPI columns of the enriched output
agree row for row. -/
theorem C10_kpi_independent_of_exchange (s : List SalesRow) (p : List ProductRow)
    (st : List StoreRow) (c : List CustomerRow) (e1 e2 : List ExchangeRow)
    (he1 : (e1.map (fun x => (x.date, x.currency))).Nodup)
    (he2 : (e2.map (fun x => (x.date, x.currency))).Nodup) :
    (performStrategicAnalysis s p st c e1).map kpiPart
      = (performStrategicAnalysis s p st c e2).map kpiPart := by
  simp only [performStrategicAnalysis]
  rw [leftJoin_eq_map _ _ _ _ _ he1, leftJoin_eq_map _ _ _ _ _ he2]
  simp only [List.map_map]
  congr 1

/-- Witness for C10: the same pipeline run against two exchange tables
with different rates gives identical KPI columns. -/
theorem C10_kpi_independent_of_exchange_witness :
    (performStrategicAnalysis [⟨some ⟨2021, 6, 1⟩, 1, 1, 1, "EUR", some 1⟩] [] [] []
        [⟨some ⟨2021, 6, 1⟩, some "EUR", some 2⟩]).map kpiPart
      = (performStrategicAnalysis [⟨some ⟨2021, 6, 1⟩, 1, 1, 1, "EUR", some 1⟩] [] [] []
        [⟨some ⟨2021, 6, 1⟩, some "EUR", some 3⟩]).map kpiPart :=
  C10_kpi_independent_of_exchange [⟨some ⟨2021, 6, 1⟩, 1, 1, 1, "EUR", some 1⟩] [] [] []
    [⟨some ⟨2021, 6, 1⟩, some "EUR", some 2⟩]
    [⟨some ⟨2021, 6, 1⟩, some "EUR", some 3⟩] (by decide) (by decide)
